import Mathlib

/-!
# Verification of the rolling-buffer screen-recording engine

Shallow embedding of the buffer/extraction engine of the screen recorder
(`AdvancedScreenRecorder` component): the segment data model, the rolling
buffer operations (`cleanupOldBufferChunks`, the `ondataavailable` append
path, `clearBuffer`), the extraction service (`captureLastMinutes`), the
settings update path (`updateSettings`) and the background-session start
(`startBackgroundRecording`), together with theorems settling the spec's
claims about them.

Modelling conventions:
* `Date.now()` instants and durations are `Int` milliseconds.
* A `Blob` is its byte list together with its reported `size`.
* React state semantics: inside one event handler, `settings` (and every
  other `useState` value captured by closure) still holds the value of the
  render the handler was created in; `setX` only takes effect at the next
  render.  Functions below that model a handler therefore thread the
  pre-update state explicitly.
* JS `Array.prototype.sort` is stable (ES2019); with the comparator
  `(a, b) => a.index - b.index` it is modelled by a stable insertion sort
  on the `index` field.
-/

namespace RecordingApp

/-- A binary payload as handed to `ondataavailable`: its bytes and its
reported `size` (the code only ever reads `.size`). -/
structure Blob where
  size : Nat
  bytes : List Nat
deriving Repr, DecidableEq

/-- `interface BufferChunk { data: Blob; timestamp: number; index: number }` -/
structure BufferChunk where
  data : Blob
  timestamp : Int
  index : Nat
deriving Repr, DecidableEq

/-- `settings.screenSource : "screen" | "window" | "tab"` -/
inductive ScreenSource where
  | screen | window | tab
deriving Repr, DecidableEq

/-- `settings.videoQuality : "low" | "medium" | "high" | "ultra"` -/
inductive VideoQuality where
  | low | medium | high | ultra
deriving Repr, DecidableEq

/-- `interface RecordingSettings` (bufferDuration in minutes). -/
structure RecordingSettings where
  screenSource : ScreenSource
  includeSystemAudio : Bool
  includeMicrophone : Bool
  videoQuality : VideoQuality
  frameRate : Nat
  audioBitrate : Nat
  backgroundRecording : Bool
  bufferDuration : Nat
deriving Repr, DecidableEq

/-- The component state relevant to the rolling-buffer engine: the refs
`bufferChunksRef`, `chunkIndexRef`, the `useState` values `settings`,
`backgroundRecording`, `bufferSize`, `bufferTime`, `error`, and the last
extracted artifact (`videoURL`, modelled by the blob list it was built
from). -/
structure ComponentState where
  settings : RecordingSettings
  backgroundRecording : Bool
  bufferChunks : List BufferChunk
  chunkIndex : Nat
  bufferSize : Nat
  bufferTime : Nat
  error : Option String
  videoURL : Option (List Blob)
deriving Repr, DecidableEq

/-- `const maxAge = settings.bufferDuration * 60 * 1000` (milliseconds). -/
def maxAgeOf (settings : RecordingSettings) : Int :=
  (settings.bufferDuration : Int) * 60 * 1000

/-- `cleanupOldBufferChunks`: keep exactly the chunks with
`now - chunk.timestamp <= maxAge`. -/
def cleanupOldBufferChunks (settings : RecordingSettings) (now : Int)
    (chunks : List BufferChunk) : List BufferChunk :=
  let maxAge := maxAgeOf settings
  chunks.filter (fun chunk => now - chunk.timestamp ≤ maxAge)

/-- Stable insertion of a chunk into a list sorted by `index` ascending:
the new chunk goes after every element whose `index` is `≤` its own,
exactly where a stable comparator sort `(a, b) => a.index - b.index`
would leave it. -/
def insertChunk (c : BufferChunk) : List BufferChunk → List BufferChunk
  | [] => [c]
  | d :: ds => if c.index < d.index then c :: d :: ds else d :: insertChunk c ds

/-- `[...chunks].sort((a, b) => a.index - b.index)`: stable sort by the
`index` field, realised as insertion sort. -/
def sortChunksByIndex : List BufferChunk → List BufferChunk
  | [] => []
  | c :: cs => insertChunk c (sortChunksByIndex cs)

/-- Result of `captureLastMinutes`: either a destructive toast declining
the request (`declined title description`, an ordinary return, nothing is
thrown), or a capture assembling the listed chunks, in that order, into
the artifact blob. -/
inductive CaptureResult where
  | declined (title description : String)
  | captured (chunksToUse : List BufferChunk)
deriving Repr, DecidableEq

/-- `captureLastMinutes(minutes)` as a function of the buffer contents and
`Date.now()`.  `minutes = none` is the `null` / "capture all" case. -/
def captureLastMinutes (bufferChunks : List BufferChunk) (now : Int)
    (minutes : Option Int) : CaptureResult :=
  if bufferChunks.length = 0 then
    .declined "No data available" "No recording data found in buffer."
  else
    let sortedChunks := sortChunksByIndex bufferChunks
    match minutes with
    | none => .captured sortedChunks
    | some m =>
      let cutoffTime := now - m * 60 * 1000
      let chunksToUse := sortedChunks.filter (fun chunk => chunk.timestamp ≥ cutoffTime)
      if chunksToUse.length = 0 then
        .declined "No data available"
          ("Not enough buffer data for " ++ toString m ++ " minute(s).")
      else
        .captured chunksToUse

/-- The artifact bytes assembled from a capture: `new Blob(blobData)`
concatenates the chunk payloads in list order. -/
def artifactBytes (chunksToUse : List BufferChunk) : List Nat :=
  (chunksToUse.map (fun c => c.data.bytes)).flatten

/-- The background recorder's `ondataavailable` handler: a chunk is stored
only when `event.data` exists and `event.data.size > 0`; it is stamped
with `Date.now()` and the post-incremented `chunkIndexRef.current`. -/
def ondataavailable (s : ComponentState) (data : Option Blob) (now : Int) :
    ComponentState :=
  let size := match data with
    | none => 0
    | some b => b.size
  match data with
  | some b =>
    if size > 0 then
      let chunk : BufferChunk := { data := b, timestamp := now, index := s.chunkIndex }
      { s with bufferChunks := s.bufferChunks ++ [chunk],
               chunkIndex := s.chunkIndex + 1,
               bufferSize := (s.bufferChunks ++ [chunk]).length }
    else s
  | none => s

/-- `clearBuffer`: drops all chunks and resets the sequence counter. -/
def clearBuffer (s : ComponentState) : ComponentState :=
  { s with bufferChunks := [], chunkIndex := 0, bufferSize := 0, bufferTime := 0 }

/-- `updateSettings("bufferDuration", value)`.  `setSettings` only takes
effect at the next render, so the synchronous
`cleanupOldBufferChunks()` call on the `bufferDuration && backgroundRecording`
branch closes over the OLD `settings` and filters with the OLD
`bufferDuration`. -/
def updateSettingsBufferDuration (s : ComponentState) (value : Nat) (now : Int) :
    ComponentState :=
  let newSettings := { s.settings with bufferDuration := value }
  if s.backgroundRecording then
    { s with settings := newSettings,
             bufferChunks := cleanupOldBufferChunks s.settings now s.bufferChunks }
  else
    { s with settings := newSettings }

/-- The error object a rejected `getDisplayMedia` call throws: its `name`
and its `message`.  A falsy (absent or empty) `err.message` is modelled by
the empty string. -/
structure CaptureError where
  name : String
  message : String
deriving Repr, DecidableEq

/-- Outcome of `navigator.mediaDevices.getDisplayMedia`: the stream, or a
rejection carrying the thrown error. -/
inductive AcquireResult where
  | success
  | failure (err : CaptureError)
deriving Repr, DecidableEq

/-- The message computed by the `catch` block of
`startBackgroundRecording`: permission and support failures get their
dedicated texts; every other failure that carries a (truthy) `message`
gets `Error: ${err.message}`; only then the generic fallback. -/
def startFailureMessage (err : CaptureError) : String :=
  if err.name = "NotAllowedError" then "Permission denied. Please allow screen sharing."
  else if err.name = "NotSupportedError" then "Screen recording not supported in this browser."
  else if err.message ≠ "" then "Error: " ++ err.message
  else "Failed to start background recording"

/-- `startBackgroundRecording()` up to and including the acquisition of the
display stream.  The function performs no already-active check: it
unconditionally runs `setError(null)` and clears `bufferChunksRef`,
`chunkIndexRef`, `bufferTime`, `bufferSize` BEFORE awaiting
`getDisplayMedia`.  On rejection the `catch` block sets the error message
and `setBackgroundRecording(false)`; on success `backgroundRecording`
becomes true in the recorder's `onstart` callback. -/
def startBackgroundRecording (s : ComponentState) (acquire : AcquireResult) :
    ComponentState :=
  let s1 : ComponentState :=
    { s with error := none, bufferChunks := [], chunkIndex := 0,
             bufferTime := 0, bufferSize := 0 }
  match acquire with
  | .success => { s1 with backgroundRecording := true }
  | .failure err =>
    { s1 with error := some (startFailureMessage err), backgroundRecording := false }

/-- One tick of the background-recording interval timer:
`setBufferTime(prev + 1)`, `setBufferSize(bufferChunksRef.current.length)`
(read before the sweep), then `cleanupOldBufferChunks()`. -/
def timerTick (s : ComponentState) (now : Int) : ComponentState :=
  { s with bufferTime := s.bufferTime + 1,
           bufferSize := s.bufferChunks.length,
           bufferChunks := cleanupOldBufferChunks s.settings now s.bufferChunks }

/-- Buffer-affecting operations that can interleave during one background
session, between start and stop: an `ondataavailable` delivery, an
eviction timer tick, a `captureLastMinutes` request and an explicit
`clearBuffer`. -/
inductive SessionOp where
  | append (data : Option Blob) (now : Int)
  | evict (now : Int)
  | extract (minutes : Option Int) (now : Int)
  | clear
deriving Repr, DecidableEq

/-- Effect of one session operation on the component state.  Extraction
only replaces the last artifact (`videoURL`); it never touches the buffer
or the sequence counter. -/
def stepOp (s : ComponentState) : SessionOp → ComponentState
  | .append data now => ondataavailable s data now
  | .evict now => timerTick s now
  | .extract minutes now =>
    match captureLastMinutes s.bufferChunks now minutes with
    | .declined _ _ => s
    | .captured chunksToUse => { s with videoURL := some (chunksToUse.map (fun c => c.data)) }
  | .clear => clearBuffer s

/-- Run a list of session operations in order. -/
def runOps (s : ComponentState) : List SessionOp → ComponentState
  | [] => s
  | op :: ops => runOps (stepOp s op) ops

/-- The sequence values assigned at ingestion along a run: exactly the
appends whose guard (`event.data && event.data.size > 0`) fires record
the pre-increment `chunkIndexRef.current`. -/
def assignedSeqs (s : ComponentState) : List SessionOp → List Nat
  | [] => []
  | op :: ops =>
    (match op with
     | .append (some b) _ => if b.size > 0 then [s.chunkIndex] else []
     | _ => []) ++ assignedSeqs (stepOp s op) ops

/-- Run of consecutive `ondataavailable` deliveries, each carrying a blob
and its arrival instant. -/
def runAppends (s : ComponentState) : List (Blob × Int) → ComponentState
  | [] => s
  | (b, t) :: ps => runAppends (ondataavailable s (some b) t) ps

/-- The chunk records an append run is expected to produce when the
sequence counter starts at `k`. -/
def appendedChunks (k : Nat) : List (Blob × Int) → List BufferChunk
  | [] => []
  | (b, t) :: ps => { data := b, timestamp := t, index := k } :: appendedChunks (k + 1) ps

/-! ## Helper lemmas about the stable index sort -/

theorem insertChunk_perm (c : BufferChunk) (l : List BufferChunk) :
    (insertChunk c l).Perm (c :: l) := by
  induction l with
  | nil => simp [insertChunk]
  | cons d ds ih =>
    by_cases h : c.index < d.index
    · simp [insertChunk, h]
    · rw [insertChunk, if_neg h]
      exact (ih.cons d).trans (List.Perm.swap c d ds)

theorem sortChunksByIndex_perm (l : List BufferChunk) :
    (sortChunksByIndex l).Perm l := by
  induction l with
  | nil => simp [sortChunksByIndex]
  | cons c cs ih =>
    exact (insertChunk_perm c (sortChunksByIndex cs)).trans (ih.cons c)

theorem sorted_insertChunk (c : BufferChunk) (l : List BufferChunk)
    (h : l.Pairwise (fun a b => a.index ≤ b.index)) :
    (insertChunk c l).Pairwise (fun a b => a.index ≤ b.index) := by
  induction l with
  | nil => simp [insertChunk]
  | cons d ds ih =>
    rcases List.pairwise_cons.mp h with ⟨hd, hds⟩
    by_cases hcd : c.index < d.index
    · rw [insertChunk, if_pos hcd]
      refine List.pairwise_cons.mpr ⟨?_, h⟩
      intro x hx
      rcases List.mem_cons.mp hx with rfl | hx
      · omega
      · exact le_trans (le_of_lt hcd) (hd x hx)
    · rw [insertChunk, if_neg hcd]
      refine List.pairwise_cons.mpr ⟨?_, ih hds⟩
      intro x hx
      have hx' : x = c ∨ x ∈ ds := by
        have := (insertChunk_perm c ds).mem_iff.mp hx
        simpa using this
      rcases hx' with rfl | hx'
      · omega
      · exact hd x hx'

theorem sorted_sortChunksByIndex (l : List BufferChunk) :
    (sortChunksByIndex l).Pairwise (fun a b => a.index ≤ b.index) := by
  induction l with
  | nil => simp [sortChunksByIndex]
  | cons c cs ih => exact sorted_insertChunk c _ ih

theorem eq_of_perm_of_strictSorted {l₁ l₂ : List BufferChunk}
    (hp : l₁.Perm l₂)
    (h₁ : l₁.Pairwise (fun a b => a.index < b.index))
    (h₂ : l₂.Pairwise (fun a b => a.index < b.index)) : l₁ = l₂ := by
  haveI : IsAntisymm BufferChunk (fun a b => a.index < b.index) :=
    ⟨fun a b hab hba => absurd hba (by omega)⟩
  exact List.eq_of_perm_of_sorted hp h₁ h₂

theorem strictSorted_of_sorted_nodup {l : List BufferChunk}
    (hs : l.Pairwise (fun a b => a.index ≤ b.index))
    (hn : (l.map (fun c => c.index)).Nodup) :
    l.Pairwise (fun a b => a.index < b.index) := by
  have hne : l.Pairwise (fun a b => a.index ≠ b.index) := List.pairwise_map.mp hn
  exact (hs.and hne).imp (fun h => lt_of_le_of_ne h.1 h.2)

theorem sortChunksByIndex_eq_of_perm {phys target : List BufferChunk}
    (hperm : phys.Perm target)
    (hsorted : target.Pairwise (fun a b => a.index < b.index)) :
    sortChunksByIndex phys = target := by
  have hperm' : (sortChunksByIndex phys).Perm target :=
    (sortChunksByIndex_perm phys).trans hperm
  have hn : (target.map (fun c => c.index)).Nodup :=
    List.pairwise_map.mpr (hsorted.imp fun h => Nat.ne_of_lt h)
  have hn' : ((sortChunksByIndex phys).map (fun c => c.index)).Nodup :=
    ((hperm'.map (fun c => c.index)).nodup_iff).mpr hn
  exact eq_of_perm_of_strictSorted hperm'
    (strictSorted_of_sorted_nodup (sorted_sortChunksByIndex phys) hn') hsorted

/-! ## Helper lemmas about append runs -/

theorem ondataavailable_pos (s : ComponentState) (b : Blob) (now : Int)
    (hb : 0 < b.size) :
    ondataavailable s (some b) now =
      { s with bufferChunks :=
                 s.bufferChunks ++ [{ data := b, timestamp := now, index := s.chunkIndex }],
               chunkIndex := s.chunkIndex + 1,
               bufferSize :=
                 (s.bufferChunks ++
                   [({ data := b, timestamp := now, index := s.chunkIndex } : BufferChunk)]).length } := by
  simp [ondataavailable, hb]

theorem runAppends_spec (ps : List (Blob × Int)) (s : ComponentState)
    (hpos : ∀ p ∈ ps, 0 < p.1.size) :
    (runAppends s ps).bufferChunks = s.bufferChunks ++ appendedChunks s.chunkIndex ps ∧
    (runAppends s ps).chunkIndex = s.chunkIndex + ps.length := by
  induction ps generalizing s with
  | nil => simp [runAppends, appendedChunks]
  | cons p ps ih =>
    obtain ⟨b, t⟩ := p
    have hb : 0 < b.size := hpos (b, t) (List.mem_cons_self _ _)
    have hrec := ih (ondataavailable s (some b) t)
      (fun q hq => hpos q (List.mem_cons_of_mem _ hq))
    rw [ondataavailable_pos s b t hb] at hrec
    simp only [runAppends, appendedChunks]
    rw [ondataavailable_pos s b t hb]
    refine ⟨?_, ?_⟩
    · rw [hrec.1]
      simp [List.append_assoc]
    · rw [hrec.2]
      simp
      omega

theorem appendedChunks_length (ps : List (Blob × Int)) (k : Nat) :
    (appendedChunks k ps).length = ps.length := by
  induction ps generalizing k with
  | nil => simp [appendedChunks]
  | cons p ps ih => obtain ⟨b, t⟩ := p; simp [appendedChunks, ih]

theorem appendedChunks_map_data (ps : List (Blob × Int)) (k : Nat) :
    (appendedChunks k ps).map (fun c => c.data) = ps.map Prod.fst := by
  induction ps generalizing k with
  | nil => simp [appendedChunks]
  | cons p ps ih => obtain ⟨b, t⟩ := p; simp [appendedChunks, ih]

theorem appendedChunks_map_index (ps : List (Blob × Int)) (k : Nat) :
    (appendedChunks k ps).map (fun c => c.index) = List.range' k ps.length := by
  induction ps generalizing k with
  | nil => simp [appendedChunks]
  | cons p ps ih => obtain ⟨b, t⟩ := p; simp [appendedChunks, ih, List.range'_succ]

theorem appendedChunks_bound (ps : List (Blob × Int)) (k : Nat) :
    ∀ c ∈ appendedChunks k ps, k ≤ c.index := by
  induction ps generalizing k with
  | nil => simp [appendedChunks]
  | cons p ps ih =>
    obtain ⟨b, t⟩ := p
    intro c hc
    rcases List.mem_cons.mp hc with rfl | hc
    · exact le_refl _
    · exact le_trans (Nat.le_succ k) (ih (k + 1) c hc)

theorem appendedChunks_strictSorted (ps : List (Blob × Int)) (k : Nat) :
    (appendedChunks k ps).Pairwise (fun a b => a.index < b.index) := by
  induction ps generalizing k with
  | nil => simp [appendedChunks]
  | cons p ps ih =>
    obtain ⟨b, t⟩ := p
    refine List.pairwise_cons.mpr ⟨?_, ih (k + 1)⟩
    intro c hc
    have := appendedChunks_bound ps (k + 1) c hc
    simpa using lt_of_lt_of_le (Nat.lt_succ_self k) this

/-! ## Helper lemmas about interleaved session operations -/

theorem stepOp_chunkIndex_le (s : ComponentState) (op : SessionOp)
    (h : op ≠ SessionOp.clear) : s.chunkIndex ≤ (stepOp s op).chunkIndex := by
  match op with
  | .append none _ => simp [stepOp, ondataavailable]
  | .append (some b) now =>
    by_cases hb : 0 < b.size
    · rw [show stepOp s (.append (some b) now) = ondataavailable s (some b) now from rfl,
          ondataavailable_pos s b now hb]
      exact Nat.le_succ _
    · simp [stepOp, ondataavailable, hb]
  | .evict now => simp [stepOp, timerTick]
  | .extract m now =>
    simp only [stepOp]
    cases captureLastMinutes s.bufferChunks now m <;> simp
  | .clear => exact absurd rfl h

theorem assignedSeqs_strictMono (ops : List SessionOp) (s : ComponentState)
    (hnc : ∀ op ∈ ops, op ≠ SessionOp.clear) :
    (assignedSeqs s ops).Pairwise (fun a b => a < b) ∧
    ∀ x ∈ assignedSeqs s ops, s.chunkIndex ≤ x := by
  induction ops generalizing s with
  | nil => simp [assignedSeqs]
  | cons op ops ih =>
    have hop : op ≠ SessionOp.clear := hnc op (List.mem_cons_self _ _)
    have hrest : ∀ o ∈ ops, o ≠ SessionOp.clear :=
      fun o ho => hnc o (List.mem_cons_of_mem _ ho)
    obtain ⟨hp, hbd⟩ := ih (stepOp s op) hrest
    have hidx := stepOp_chunkIndex_le s op hop
    match op with
    | .clear => exact absurd rfl hop
    | .append (some b) now =>
      by_cases hb : b.size > 0
      · have hstep : (stepOp s (SessionOp.append (some b) now)).chunkIndex
            = s.chunkIndex + 1 := by
          rw [show stepOp s (.append (some b) now) = ondataavailable s (some b) now from rfl,
              ondataavailable_pos s b now hb]
        refine ⟨?_, ?_⟩
        · simp only [assignedSeqs, if_pos hb, List.singleton_append]
          refine List.pairwise_cons.mpr ⟨?_, hp⟩
          intro x hx
          have := hbd x hx
          omega
        · intro x hx
          simp only [assignedSeqs, if_pos hb, List.singleton_append, List.mem_cons] at hx
          rcases hx with rfl | hx
          · exact le_refl _
          · have := hbd x hx
            omega
      · refine ⟨?_, ?_⟩
        · simpa [assignedSeqs, hb] using hp
        · intro x hx
          simp only [assignedSeqs, if_neg hb, List.nil_append] at hx
          have := hbd x hx
          omega
    | .append none now =>
      refine ⟨?_, ?_⟩
      · simpa [assignedSeqs] using hp
      · intro x hx
        simp only [assignedSeqs, List.nil_append] at hx
        have := hbd x hx
        omega
    | .evict now =>
      refine ⟨?_, ?_⟩
      · simpa [assignedSeqs] using hp
      · intro x hx
        simp only [assignedSeqs, List.nil_append] at hx
        have := hbd x hx
        omega
    | .extract m now =>
      refine ⟨?_, ?_⟩
      · simpa [assignedSeqs] using hp
      · intro x hx
        simp only [assignedSeqs, List.nil_append] at hx
        have := hbd x hx
        omega

/-! ## Concrete instances used by witnesses and counterexamples -/

def exSettings : RecordingSettings :=
  { screenSource := .screen, includeSystemAudio := true, includeMicrophone := false,
    videoQuality := .medium, frameRate := 30, audioBitrate := 128,
    backgroundRecording := false, bufferDuration := 3 }

def exSettings5 : RecordingSettings := { exSettings with bufferDuration := 5 }

def exBlob : Blob := { size := 4, bytes := [10, 20, 30, 40] }

def exBlob2 : Blob := { size := 2, bytes := [7, 8] }

def exEmptyBlob : Blob := { size := 0, bytes := [] }

/-- A chunk captured at instant 0: stale relative to every window once
`now` is ten minutes later. -/
def staleChunk : BufferChunk := { data := exBlob, timestamp := 0, index := 0 }

/-- Component state of a background session that has been running for a
while: one buffered chunk, sequence counter at 1. -/
def exActiveState : ComponentState :=
  { settings := exSettings, backgroundRecording := true,
    bufferChunks := [{ data := exBlob, timestamp := 1000, index := 0 }],
    chunkIndex := 1, bufferSize := 1, bufferTime := 1, error := none, videoURL := none }

/-- Component state just after a successful background start: empty
buffer, sequence counter 0. -/
def exFreshActive : ComponentState :=
  { settings := exSettings, backgroundRecording := true, bufferChunks := [],
    chunkIndex := 0, bufferSize := 0, bufferTime := 0, error := none, videoURL := none }

/-! ## Claims -/

/-- C7: after `cleanupOldBufferChunks(now)` with window `maxAge =
bufferDuration * 60 * 1000`, every retained chunk satisfies
`now - timestamp <= maxAge`, every dropped chunk had
`now - timestamp > maxAge` at the time of the call, and the survivors
keep their relative order (the result is a sublist of the input). -/
theorem claim_C7_eviction_retention (settings : RecordingSettings) (now : Int)
    (chunks : List BufferChunk) :
    (∀ c ∈ cleanupOldBufferChunks settings now chunks,
        now - c.timestamp ≤ maxAgeOf settings) ∧
    (∀ c ∈ chunks, c ∉ cleanupOldBufferChunks settings now chunks →
        now - c.timestamp > maxAgeOf settings) ∧
    (cleanupOldBufferChunks settings now chunks).Sublist chunks := by
  refine ⟨?_, ?_, ?_⟩
  · intro c hc
    simp only [cleanupOldBufferChunks, List.mem_filter, decide_eq_true_eq] at hc
    exact hc.2
  · intro c hc hnc
    by_contra hle
    push_neg at hle
    exact hnc (by
      simp only [cleanupOldBufferChunks, List.mem_filter, decide_eq_true_eq]
      exact ⟨hc, hle⟩)
  · exact List.filter_sublist chunks

/-- C7 witness: eviction at `now = 600000` on a two-chunk buffer keeps the
survivors in their original relative order. -/
theorem claim_C7_eviction_retention_witness :
    (cleanupOldBufferChunks exSettings 600000
        [staleChunk, { data := exBlob2, timestamp := 590000, index := 1 }]).Sublist
      [staleChunk, { data := exBlob2, timestamp := 590000, index := 1 }] :=
  (claim_C7_eviction_retention exSettings 600000
    [staleChunk, { data := exBlob2, timestamp := 590000, index := 1 }]).2.2

/-- C9: eviction is idempotent — running `cleanupOldBufferChunks` a second
time with the same `now` and the same window removes nothing more. -/
theorem claim_C9_eviction_idempotent (settings : RecordingSettings) (now : Int)
    (chunks : List BufferChunk) :
    cleanupOldBufferChunks settings now (cleanupOldBufferChunks settings now chunks)
      = cleanupOldBufferChunks settings now chunks := by
  simp [cleanupOldBufferChunks, List.filter_filter]

/-- C9 witness: a concrete double eviction equals the single one. -/
theorem claim_C9_eviction_idempotent_witness :
    cleanupOldBufferChunks exSettings 600000
        (cleanupOldBufferChunks exSettings 600000
          [staleChunk, { data := exBlob2, timestamp := 590000, index := 1 }])
      = cleanupOldBufferChunks exSettings 600000
          [staleChunk, { data := exBlob2, timestamp := 590000, index := 1 }] :=
  claim_C9_eviction_idempotent exSettings 600000
    [staleChunk, { data := exBlob2, timestamp := 590000, index := 1 }]

/-- C8: the `ondataavailable` path never stores a zero-size segment — a
missing or zero-size blob leaves the whole state (buffer contents, length
and sequence counter) unchanged; a positive-size blob appends exactly one
chunk and advances the counter by one; hence a buffer of positive-size
chunks only ever contains positive-size chunks. -/
theorem claim_C8_no_zero_size_segments (s : ComponentState) (b : Blob) (now : Int) :
    (b.size = 0 → ondataavailable s (some b) now = s) ∧
    ondataavailable s none now = s ∧
    (0 < b.size →
      (ondataavailable s (some b) now).bufferChunks
        = s.bufferChunks ++ [{ data := b, timestamp := now, index := s.chunkIndex }] ∧
      (ondataavailable s (some b) now).bufferChunks.length
        = s.bufferChunks.length + 1 ∧
      (ondataavailable s (some b) now).chunkIndex = s.chunkIndex + 1) ∧
    ((∀ c ∈ s.bufferChunks, 0 < c.data.size) →
      ∀ d : Option Blob, ∀ c ∈ (ondataavailable s d now).bufferChunks, 0 < c.data.size) := by
  refine ⟨?_, rfl, ?_, ?_⟩
  · intro hb
    simp [ondataavailable, hb]
  · intro hb
    rw [ondataavailable_pos s b now hb]
    exact ⟨rfl, by simp, rfl⟩
  · intro hinv d c hc
    match d with
    | none => exact hinv c hc
    | some b' =>
      by_cases hb' : 0 < b'.size
      · rw [ondataavailable_pos s b' now hb'] at hc
        simp only [List.mem_append, List.mem_singleton] at hc
        rcases hc with hc | rfl
        · exact hinv c hc
        · exact hb'
      · simp only [ondataavailable, gt_iff_lt, if_neg hb'] at hc
        exact hinv c hc

/-- C8 witness: appending the empty blob to a concrete active state is a
no-op on the whole component state. -/
theorem claim_C8_no_zero_size_segments_witness :
    ondataavailable exActiveState (some exEmptyBlob) 5000 = exActiveState :=
  (claim_C8_no_zero_size_segments exActiveState exEmptyBlob 5000).1 rfl

/-- C2 counterexample: `captureLastMinutes` runs no eviction pass.  With a
single chunk captured at instant 0, `now` ten minutes later and even the
largest configurable window (5 minutes), the "capture all" extraction
still returns that chunk although it is older than `now - window`. -/
theorem claim_C2_counterexample :
    captureLastMinutes [staleChunk] 600000 none = .captured [staleChunk] ∧
    600000 - staleChunk.timestamp > maxAgeOf exSettings5 := by
  exact ⟨rfl, by decide⟩

/-- C2 amended: `captureLastMinutes` does NOT evict first; on a non-empty
buffer the "all" extraction considers and returns every buffered chunk
(sorted by `index`), regardless of how old each chunk is — eviction runs
only on the 1-second interval timer and on `bufferDuration` updates. -/
theorem claim_C2_no_eviction_on_extract (chunks : List BufferChunk) (now : Int)
    (hne : chunks ≠ []) :
    captureLastMinutes chunks now none = .captured (sortChunksByIndex chunks) ∧
    (sortChunksByIndex chunks).Perm chunks := by
  refine ⟨?_, sortChunksByIndex_perm chunks⟩
  rw [captureLastMinutes, if_neg (by simpa [List.length_eq_zero] using hne)]

/-- C2 witness: the amended statement at the stale one-chunk buffer. -/
theorem claim_C2_no_eviction_on_extract_witness :
    captureLastMinutes [staleChunk] 600000 none
      = .captured (sortChunksByIndex [staleChunk]) :=
  (claim_C2_no_eviction_on_extract [staleChunk] 600000 (by decide)).1

/-- State for the C3 failing input: background recording active, window
currently 5 minutes, one chunk that is 2 minutes old at `now = 600000`. -/
def exStateC3 : ComponentState :=
  { settings := exSettings5, backgroundRecording := true,
    bufferChunks := [{ data := exBlob, timestamp := 480000, index := 0 }],
    chunkIndex := 1, bufferSize := 1, bufferTime := 120, error := none, videoURL := none }

/-- C3 (code bug): shrinking `bufferDuration` from 5 to 1 minute while the
buffer holds a 2-minute-old chunk does NOT remove it — the synchronous
`cleanupOldBufferChunks()` call inside `updateSettings` closes over the
pre-update `settings` and filters with the OLD 5-minute `maxAge`, so the
chunk survives even though it is older than the new 1-minute window. -/
theorem claim_C3_stale_window_on_shrink :
    (updateSettingsBufferDuration exStateC3 1 600000).settings.bufferDuration = 1 ∧
    (updateSettingsBufferDuration exStateC3 1 600000).bufferChunks
      = [{ data := exBlob, timestamp := 480000, index := 0 }] ∧
    600000 - (480000 : Int)
      > maxAgeOf (updateSettingsBufferDuration exStateC3 1 600000).settings := by
  refine ⟨rfl, by decide, by decide⟩

/-- C4 counterexample: `startBackgroundRecording` invoked while a
background session is already active (`backgroundRecording = true`) is not
rejected: it wipes the existing session's chunks and resets its sequence
counter before acquiring a new source. -/
theorem claim_C4_counterexample :
    exActiveState.backgroundRecording = true ∧
    (startBackgroundRecording exActiveState AcquireResult.success).bufferChunks
      ≠ exActiveState.bufferChunks ∧
    (startBackgroundRecording exActiveState AcquireResult.success).chunkIndex
      ≠ exActiveState.chunkIndex := by
  refine ⟨rfl, by decide, by decide⟩

/-- C4 amended: `startBackgroundRecording` performs no already-active
check; from every prior state — active session or not — and for either
acquisition outcome, it unconditionally clears the rolling buffer and
resets the sequence counter to 0 (double-start exclusivity is enforced
only by the UI toggle, not by this function). -/
theorem claim_C4_start_clears_unconditionally (s : ComponentState)
    (acquire : AcquireResult) :
    (startBackgroundRecording s acquire).bufferChunks = [] ∧
    (startBackgroundRecording s acquire).chunkIndex = 0 := by
  cases acquire <;> exact ⟨rfl, rfl⟩

/-- C4 witness: the amended statement at the concrete active state. -/
theorem claim_C4_start_clears_unconditionally_witness :
    (startBackgroundRecording exActiveState AcquireResult.success).bufferChunks = [] :=
  (claim_C4_start_clears_unconditionally exActiveState AcquireResult.success).1

/-- Pre-attempt state for C5: no session active, but the rolling buffer
still holds two chunks and the counter is at 2. -/
def exPreState : ComponentState :=
  { settings := exSettings, backgroundRecording := false,
    bufferChunks := [{ data := exBlob2, timestamp := 2000, index := 0 },
                     { data := exBlob, timestamp := 3000, index := 1 }],
    chunkIndex := 2, bufferSize := 2, bufferTime := 0, error := none, videoURL := none }

/-- The permission-denied rejection thrown by `getDisplayMedia`. -/
def exDeniedError : CaptureError :=
  { name := "NotAllowedError", message := "Permission denied" }

/-- A rejection with an unrecognized `name` that carries a message: takes
the catch block's `else if (err.message)` branch. -/
def exAbortError : CaptureError :=
  { name := "AbortError", message := "The request was aborted" }

/-- C5 counterexample: when `getDisplayMedia` rejects (permission denied),
the buffer and sequence counter are NOT left at their pre-attempt values:
`startBackgroundRecording` already cleared them before awaiting the
source. -/
theorem claim_C5_counterexample :
    (startBackgroundRecording exPreState (AcquireResult.failure exDeniedError)).bufferChunks
      ≠ exPreState.bufferChunks ∧
    (startBackgroundRecording exPreState (AcquireResult.failure exDeniedError)).chunkIndex
      ≠ exPreState.chunkIndex := by
  refine ⟨by decide, by decide⟩

/-- C5 amended: on acquisition failure the buffer and sequence counter end
cleared — empty buffer and counter 0, because the attempt clears them
up-front — the session is not marked active, and the catch block's
message for the thrown error is surfaced: the dedicated permission-denied
and not-supported texts for those names, `Error: ${err.message}` for any
other failure carrying a message, and the generic fallback only when
there is none. -/
theorem claim_C5_failure_leaves_cleared_buffer (s : ComponentState)
    (err : CaptureError) :
    (startBackgroundRecording s (AcquireResult.failure err)).bufferChunks = [] ∧
    (startBackgroundRecording s (AcquireResult.failure err)).chunkIndex = 0 ∧
    (startBackgroundRecording s (AcquireResult.failure err)).backgroundRecording = false ∧
    (startBackgroundRecording s (AcquireResult.failure err)).error
      = some (startFailureMessage err) :=
  ⟨rfl, rfl, rfl, rfl⟩

/-- C5 witness: at the concrete pre-attempt state, an `AbortError`
carrying a message leaves the buffer cleared and surfaces
`Error: The request was aborted` — the message-bearing branch, not the
generic fallback. -/
theorem claim_C5_failure_leaves_cleared_buffer_witness :
    (startBackgroundRecording exPreState (AcquireResult.failure exAbortError)).bufferChunks
      = [] ∧
    (startBackgroundRecording exPreState (AcquireResult.failure exAbortError)).error
      = some "Error: The request was aborted" :=
  ⟨(claim_C5_failure_leaves_cleared_buffer exPreState exAbortError).1, by
    have h := (claim_C5_failure_leaves_cleared_buffer exPreState exAbortError).2.2.2
    simpa [startFailureMessage, exAbortError] using h⟩

/-- The insufficiency toast text can never coincide with the empty-buffer
toast text, whatever the requested minute count renders to (the fixed
parts alone are already longer than the whole empty-buffer text). -/
theorem insufficient_message_ne (m : Int) :
    ("Not enough buffer data for " ++ toString m ++ " minute(s)." : String)
      ≠ "No recording data found in buffer." := by
  intro h
  have hl := congrArg String.length h
  rw [String.length_append, String.length_append] at hl
  have h1 : ("Not enough buffer data for " : String).length = 27 := rfl
  have h2 : (" minute(s)." : String).length = 11 := rfl
  have h3 : ("No recording data found in buffer." : String).length = 34 := rfl
  omega

/-- C6: requesting a specific duration from a non-empty buffer none of
whose chunks reach the cutoff yields the "Not enough buffer data ..."
declination; requesting it from an empty buffer yields the "No recording
data found in buffer." declination; the two outcomes are distinct values,
and both are ordinary `CaptureResult` returns, not thrown errors. -/
theorem claim_C6_insufficient_distinct_from_empty (chunks : List BufferChunk)
    (now m : Int) (hne : chunks ≠ [])
    (hstale : ∀ c ∈ chunks, c.timestamp < now - m * 60 * 1000) :
    captureLastMinutes chunks now (some m)
      = .declined "No data available"
          ("Not enough buffer data for " ++ toString m ++ " minute(s).") ∧
    captureLastMinutes [] now (some m)
      = .declined "No data available" "No recording data found in buffer." ∧
    captureLastMinutes chunks now (some m) ≠ captureLastMinutes [] now (some m) := by
  have hlen : chunks.length ≠ 0 := fun h => hne (List.length_eq_zero.mp h)
  have hfe : (sortChunksByIndex chunks).filter
      (fun chunk => chunk.timestamp ≥ now - m * 60 * 1000) = [] := by
    rw [List.filter_eq_nil_iff]
    intro c hc
    have hc' : c ∈ chunks := (sortChunksByIndex_perm chunks).mem_iff.mp hc
    have := hstale c hc'
    simp only [ge_iff_le, decide_eq_true_eq, not_le]
    omega
  have hfirst : captureLastMinutes chunks now (some m)
      = .declined "No data available"
          ("Not enough buffer data for " ++ toString m ++ " minute(s).") := by
    rw [captureLastMinutes, if_neg hlen]
    simp only [hfe, List.length_nil, if_true]
  refine ⟨hfirst, rfl, ?_⟩
  rw [hfirst]
  intro h
  have h2 : captureLastMinutes ([] : List BufferChunk) now (some m)
      = .declined "No data available" "No recording data found in buffer." := rfl
  rw [h2] at h
  exact insufficient_message_ne m (by injection h with ht hd)

/-- C6 witness: a one-chunk stale buffer and the empty buffer produce the
two distinct declinations for a 1-minute request at `now = 600000`. -/
theorem claim_C6_insufficient_distinct_from_empty_witness :
    captureLastMinutes [staleChunk] 600000 (some 1)
      ≠ captureLastMinutes [] 600000 (some 1) :=
  (claim_C6_insufficient_distinct_from_empty [staleChunk] 600000 1 (by decide)
    (by decide)).2.2

/-- Session-op interleaving that reuses a sequence value: append, explicit
clear, append again. -/
def opsC10 : List SessionOp :=
  [SessionOp.append (some exBlob) 1000, SessionOp.clear,
   SessionOp.append (some exBlob2) 2000]

/-- C10 counterexample: within one background session (no stop in
between), the interleaving append–clearBuffer–append assigns the sequence
value 0 twice — `clearBuffer` resets `chunkIndexRef` to 0, so sequence
values ARE reused after a mid-session clear. -/
theorem claim_C10_counterexample :
    assignedSeqs exFreshActive opsC10 = [0, 0] ∧
    ¬ (assignedSeqs exFreshActive opsC10).Nodup := by
  refine ⟨by decide, by decide⟩

/-- C10 amended: across every interleaving of appends, eviction ticks and
extractions that contains no explicit `clearBuffer`, the sequence values
assigned at ingestion are strictly increasing and never reused; an
intervening `clearBuffer` resets the counter and breaks this. -/
theorem claim_C10_seq_strict_without_clear (s : ComponentState)
    (ops : List SessionOp) (hnc : ∀ op ∈ ops, op ≠ SessionOp.clear) :
    (assignedSeqs s ops).Pairwise (fun a b => a < b) ∧
    (assignedSeqs s ops).Nodup := by
  obtain ⟨hp, _⟩ := assignedSeqs_strictMono ops s hnc
  exact ⟨hp, hp.imp (fun h => Nat.ne_of_lt h)⟩

/-- Clear-free interleaving of appends, evictions and extractions. -/
def opsC10ok : List SessionOp :=
  [SessionOp.append (some exBlob) 1000, SessionOp.evict 2000,
   SessionOp.append (some exBlob2) 3000, SessionOp.extract none 4000,
   SessionOp.append (some exBlob) 5000]

/-- C10 witness: the amended statement on a concrete clear-free
interleaving. -/
theorem claim_C10_seq_strict_without_clear_witness :
    (assignedSeqs exFreshActive opsC10ok).Nodup :=
  (claim_C10_seq_strict_without_clear exFreshActive opsC10ok (by decide)).2

/-- Every captured extraction result is sorted by `index` ascending: the
`minutes = null` branch returns the sorted buffer, and the timed branch
filters that sorted list, which preserves sortedness. -/
theorem captured_sorted {chunks : List BufferChunk} {t : Int} {mins : Option Int}
    {res : List BufferChunk}
    (hres : captureLastMinutes chunks t mins = .captured res) :
    res.Pairwise (fun a b => a.index ≤ b.index) := by
  unfold captureLastMinutes at hres
  split at hres
  · exact absurd hres (by simp)
  · cases mins with
    | none =>
      simp only [CaptureResult.captured.injEq] at hres
      rw [← hres]
      exact sorted_sortChunksByIndex chunks
    | some m =>
      simp only [] at hres
      split at hres
      · exact absurd hres (by simp)
      · simp only [CaptureResult.captured.injEq] at hres
        rw [← hres]
        exact List.Pairwise.sublist (List.filter_sublist _)
          (sorted_sortChunksByIndex chunks)

/-- C1: extraction returns eligible segments ordered by `index` ascending
for every buffer state (first conjunct), and after `N > 0` appends from a
fresh session — with the underlying store in ANY physical order `phys` —
"capture all" returns exactly those `N` chunks in append order: the run's
buffer, whose length is `N` and whose payloads list the appended blobs in
order. -/
theorem claim_C1_extraction_ordered (s0 : ComponentState)
    (appends : List (Blob × Int)) (phys : List BufferChunk) (now : Int)
    (h0 : s0.bufferChunks = []) (hk : s0.chunkIndex = 0)
    (hne : appends ≠ []) (hpos : ∀ p ∈ appends, 0 < p.1.size)
    (hperm : phys.Perm (runAppends s0 appends).bufferChunks) :
    (∀ (chunks : List BufferChunk) (t : Int) (mins : Option Int)
        (res : List BufferChunk),
        captureLastMinutes chunks t mins = .captured res →
        res.Pairwise (fun a b => a.index ≤ b.index)) ∧
    captureLastMinutes phys now none
      = .captured (runAppends s0 appends).bufferChunks ∧
    (runAppends s0 appends).bufferChunks.length = appends.length ∧
    (runAppends s0 appends).bufferChunks.map (fun c => c.data)
      = appends.map Prod.fst := by
  have hbuf : (runAppends s0 appends).bufferChunks = appendedChunks 0 appends := by
    have hs := (runAppends_spec appends s0 hpos).1
    rw [h0, hk] at hs
    simpa using hs
  refine ⟨fun chunks t mins res hres => captured_sorted hres, ?_, ?_, ?_⟩
  · have hlen : phys.length ≠ 0 := by
      rw [hperm.length_eq, hbuf, appendedChunks_length]
      exact fun h => hne (List.length_eq_zero.mp h)
    have hcap : captureLastMinutes phys now none
        = .captured (sortChunksByIndex phys) := by
      rw [captureLastMinutes, if_neg hlen]
    rw [hcap, sortChunksByIndex_eq_of_perm hperm
      (by rw [hbuf]; exact appendedChunks_strictSorted appends 0)]
  · rw [hbuf, appendedChunks_length]
  · rw [hbuf, appendedChunks_map_data]

/-- Appends of a fresh two-chunk session, and its buffer reversed, for the
C1 witness. -/
def appendsC1 : List (Blob × Int) := [(exBlob, 1000), (exBlob2, 2000)]

/-- The same two chunks in reversed physical order. -/
def physC1 : List BufferChunk :=
  [{ data := exBlob2, timestamp := 2000, index := 1 },
   { data := exBlob, timestamp := 1000, index := 0 }]

/-- C1 witness: capturing all from the physically reversed store returns
the two chunks in append order. -/
theorem claim_C1_extraction_ordered_witness :
    captureLastMinutes physC1 500000 none
      = .captured (runAppends exFreshActive appendsC1).bufferChunks :=
  (claim_C1_extraction_ordered exFreshActive appendsC1 physC1 500000 rfl rfl
    (by decide) (by decide) (by decide)).2.1

end RecordingApp
